import Mathlib

/-!
Verification development for the flaggly feature-flag service.

The evaluation engine (src/engine.ts), the hash/bucket primitives and the
store sync operation (src/storage.ts) are embedded shallowly:

* JS strings are lists of UTF-16 code units (`Str := List Nat`); for the
  BMP characters appearing here, `String.charCodeAt` equals the code point.
* JS numbers are modelled as integers (`Int`); every comparison the engine
  performs on them (percentages, weights, timestamps) is integral in the
  claims considered.  The one NaN that matters — `new Date(bad).getTime()`
  — is modelled by `Option Int` with `none` for NaN, and the JS comparison
  `now < NaN` (which is `false`) by `jsLtNow`.
* JSON/JS values are the inductive `JSValue`; the host coercion to boolean
  (ECMAScript ToBoolean, applied by `Array.prototype.every` / `some`, by
  `&&` and by `if`) is `toBool`.
* The external jexl expression evaluator and the external `Date` parser are
  parameters of the engine (`Host`).  `jexl.evalSync` may throw (parse or
  runtime failure), so it returns `Except Unit JSValue`; engine code that
  does not catch propagates the error, exactly as unhandled JS exceptions
  propagate.  `evalSync` applied to a missing (undefined) rule throws, which
  `evalRuleOpt` records.
* Fallible engine functions return `Except Unit _`; `.error ()` is a thrown
  JS exception.
* JS plain objects used as maps are association lists; `obj[k]` is
  `assocLookup`, `obj[k] = v` is `assocSet`, and an object built by
  repeated assignment from a pair list is `dedupByKey` (first occurrence
  fixes the position; in every use below duplicate keys carry equal values,
  so keeping the first value is exact).
-/

namespace Flaggly

/-- JS strings as lists of UTF-16 code units. -/
abbrev Str := List Nat

/-- Code units of a Lean string literal (correct for BMP characters). -/
def jstr (s : String) : Str := s.data.map Char.toNat

/-- JSON/JS values as the engine observes them. -/
inductive JSValue where
  | null
  | undefined
  | bool (b : Bool)
  | num (n : Int)
  | str (s : Str)
  | arr (xs : List JSValue)
  | obj (fields : List (Str × JSValue))

/-- ECMAScript ToBoolean restricted to `JSValue`: `false`, `null`,
`undefined`, `0` and the empty string are falsy; arrays and objects
(including the empty array) are truthy. -/
def toBool : JSValue → Bool
  | .null => false
  | .undefined => false
  | .bool b => b
  | .num n => decide (n ≠ 0)
  | .str s => !s.isEmpty
  | .arr _ => true
  | .obj _ => true

/-- Lookup in a JS object modelled as an association list (`obj[k]`). -/
def assocLookup {α : Type} : List (Str × α) → Str → Option α
  | [], _ => none
  | (k', v) :: rest, k => if k' = k then some v else assocLookup rest k

/-- Assignment in a JS object (`obj[k] = v`): overwrite in place, else append. -/
def assocSet {α : Type} : List (Str × α) → Str → α → List (Str × α)
  | [], k, v => [(k, v)]
  | (k', v') :: rest, k, v =>
      if k' = k then (k, v) :: rest else (k', v') :: assocSet rest k v

/-- Auxiliary for `dedupByKey`: drop entries whose key was already seen. -/
def dedupByKeyAux {α : Type} (seen : List Str) : List (Str × α) → List (Str × α)
  | [] => []
  | (k, v) :: rest =>
      if k ∈ seen then dedupByKeyAux seen rest
      else (k, v) :: dedupByKeyAux (k :: seen) rest

/-- A JS object built from a pair list by repeated assignment, as a list of
entries in insertion order.  Duplicate keys collapse to the first
occurrence; in every use below the duplicate values are equal. -/
def dedupByKey {α : Type} (l : List (Str × α)) : List (Str × α) :=
  dedupByKeyAux [] l

/-- The `now < startTime` comparison of the engine, where `startTime` is
`new Date(step.start).getTime()`: comparison with NaN (`none`) is false. -/
def jsLtNow (now : Int) : Option Int → Bool
  | some t => decide (now < t)
  | none => false

/-! ### Data model (src/schema.ts) -/

/-- A variation of a variant flag (`featureFlagVariationSchema`).  The
payload is `none` when the field is absent (JS undefined). -/
structure Variation where
  id : Str
  weight : Int
  payload : Option JSValue

/-- A rollout step (`rolloutStep`): `start` is a date string, `percentage`
and `segment` are optional. -/
structure RolloutStep where
  start : Str
  percentage : Option Int
  segment : Option Str

/-- The flag type discriminator. -/
inductive FlagType where
  | boolean
  | payload
  | variant
deriving DecidableEq

/-- A flag definition (`inputFeatureFlagSchema`).  Fields that apply only to
some types are carried uniformly, as in the TS runtime value: `payload` is
`none` when absent, `variations` is `[]` for non-variant flags. -/
structure Flag where
  id : Str
  type : FlagType
  enabled : Bool
  rules : List Str
  segments : List Str
  rollout : Int
  rollouts : List RolloutStep
  payload : Option JSValue
  variations : List Variation

/-- The evaluation result (`FlagResultSchema`). -/
structure FlagResult where
  type : FlagType
  result : JSValue
  isEval : Bool

/-- The evaluation input context (`FlagEvaluationInput`); `id` is optional. -/
structure Input where
  id : Option Str
  user : JSValue
  page : JSValue
  geo : JSValue
  request : JSValue

/-- The external host facilities the engine calls: the jexl expression
evaluator (`jexl.evalSync`, which may throw: `.error ()`) and the date
parser (`new Date(s).getTime()`, with `none` for NaN). -/
structure Host where
  jexl : Str → Input → Except Unit JSValue
  parseDate : Str → Option Int

/-! ### Hash and bucket (src/engine.ts) -/

/-- One iteration of `hashFnv32a`: xor with the code unit, then the JS
shift-add chain.  In JS each shift is truncated to Int32 and the adds are
exact float adds below `2 ^ 53`; every later use of `hval` reduces it mod
`2 ^ 32` (`ToInt32` and the final `>>> 0`), so reducing mod `2 ^ 32` each
step is exact. -/
def fnvStep (hval c : Nat) : Nat :=
  let h := hval ^^^ c
  (h + ((h <<< 1) + (h <<< 4) + (h <<< 7) + (h <<< 8) + (h <<< 24))) % 2 ^ 32

/-- Stable hash function (FNV-1a 32-bit) over the code units of the string
(`str.charCodeAt(i)`), returning an unsigned 32-bit integer. -/
def hashFnv32a (s : Str) : Nat := s.foldl fnvStep 0x811c9dc5

/-- Template-string interpolation of a possibly-undefined id:
JS renders `undefined` as the literal string "undefined". -/
def jsStringCoerce : Option Str → Str
  | some s => s
  | none => jstr "undefined"

/-- Deterministic bucket between 1 and 100 for a user and flag:
`(hashFnv32a(userId + ":" + flagKey) % 100) + 1`. -/
def userPercentageHash (userId : Option Str) (flagKey : Str) : Nat :=
  hashFnv32a (jsStringCoerce userId ++ jstr ":" ++ flagKey) % 100 + 1

/-- Walk the variations accumulating weights; first cumulative weight at or
above the bucket wins. -/
def chooseVariantGo (bucket : Nat) (cumulative : Int) :
    List Variation → Option Str
  | [] => none
  | v :: rest =>
      let c := cumulative + v.weight
      if (bucket : Int) ≤ c then some v.id else chooseVariantGo bucket c rest

/-- Pick a variant deterministically based on user and flag; `none` when the
bucket exceeds the total weight. -/
def chooseVariant (userId : Option Str) (flagKey : Str)
    (variants : List Variation) : Option Str :=
  chooseVariantGo (userPercentageHash userId flagKey) 0 variants

/-- Check whether a user is included in a percentage rollout. -/
def isUserInRollout (userId : Option Str) (flagKey : Str)
    (percentage : Int) : Bool :=
  if percentage = 100 then true
  else decide ((userPercentageHash userId flagKey : Int) ≤ percentage)

/-! ### Decision procedure (src/engine.ts) -/

/-- The predicate form of `Array.prototype.every` the engine uses on rules:
each callback result is coerced by ToBoolean, a thrown exception
propagates, evaluation short-circuits at the first falsy result. -/
def jsEvery {α : Type} (f : α → Except Unit JSValue) :
    List α → Except Unit Bool
  | [] => .ok true
  | x :: xs =>
      match f x with
      | .error e => .error e
      | .ok v => if toBool v then jsEvery f xs else .ok false

/-- The predicate form of `Array.prototype.some` the engine uses on segment
rules: ToBoolean coercion, exception propagation, short-circuit at the
first truthy result. -/
def jsSome {α : Type} (f : α → Except Unit JSValue) :
    List α → Except Unit Bool
  | [] => .ok false
  | x :: xs =>
      match f x with
      | .error e => .error e
      | .ok v => if toBool v then .ok true else jsSome f xs

/-- Evaluate a possibly-undefined rule string: `jexl.evalSync(undefined, ·)`
throws (the lexer rejects a non-string expression), which the engine never
guards against. -/
def evalRuleOpt (H : Host) (rule : Option Str) (input : Input) :
    Except Unit JSValue :=
  match rule with
  | some r => H.jexl r input
  | none => .error ()

/-- The defined, truthy rule string for a segment id in a segments object
whose values may be undefined: `segments[seg]` is falsy when the key is
absent, when its value is undefined, and when the rule is the empty
string; `segmentRule` returns `some` exactly for a present, defined rule
(the empty-rule case is handled separately at the use site). -/
def segmentRule (segments : List (Str × Option Str)) (seg : Str) :
    Option Str :=
  match assocLookup segments seg with
  | some (some r) => some r
  | _ => none

/-- The stepSegmentPassed computation of `evaluateRolloutStep`:
`step.segment ?` and `segments[step.segment] ?` are ToBoolean tests of
strings, so an empty-string segment id counts as no segment requirement,
and an absent, undefined or empty rule fails the check without throwing;
a present rule is evaluated by jexl, whose exception propagates. -/
def stepSegmentCheck (H : Host) (segments : List (Str × Option Str))
    (stepSegment : Option Str) (input : Input) : Except Unit Bool :=
  match stepSegment with
  | none => .ok true
  | some seg =>
      if seg.isEmpty then .ok true
      else
        match segmentRule segments seg with
        | some rule =>
            if rule.isEmpty then .ok false
            else
              match H.jexl rule input with
              | .error e => .error e
              | .ok v => .ok (toBool v)
        | none => .ok false

/-- The stepPercentagePassed computation of `evaluateRolloutStep`: an
absent percentage passes. -/
def stepPercentageCheck (userId : Option Str) (flagKey : Str)
    (stepPercentage : Option Int) : Bool :=
  match stepPercentage with
  | some p => isUserInRollout userId flagKey p
  | none => true

/-- Evaluate a single rollout step.  The time gate is the JS comparison
`now < new Date(step.start).getTime()` (false when the start fails to
parse), then the segment and percentage conditions are conjoined. -/
def evaluateRolloutStep (H : Host) (step : RolloutStep)
    (segments : List (Str × Option Str)) (userId : Option Str)
    (flagKey : Str) (input : Input) (now : Int) : Except Unit Bool :=
  if jsLtNow now (H.parseDate step.start) then .ok false
  else
    match stepSegmentCheck H segments step.segment input with
    | .error e => .error e
    | .ok segPassed =>
        .ok (segPassed && stepPercentageCheck userId flagKey step.percentage)

/-- Evaluate all rollout steps: OR logic, the first passing step wins and
later steps are not consulted; a thrown segment-rule failure propagates. -/
def evaluateRolloutSteps (H : Host) (rollouts : List RolloutStep)
    (segments : List (Str × Option Str)) (userId : Option Str)
    (flagKey : Str) (input : Input) (now : Int) : Except Unit Bool :=
  match rollouts with
  | [] => .ok false
  | step :: rest =>
      match evaluateRolloutStep H step segments userId flagKey input now with
      | .error e => .error e
      | .ok true => .ok true
      | .ok false =>
          evaluateRolloutSteps H rest segments userId flagKey input now

/-- The value of a defined variation for the result:
`variation.payload ?? variation.id` (absent or null payload falls back to
the id string). -/
def variationValue (v : Variation) : JSValue :=
  match v.payload with
  | none => .str v.id
  | some .null => .str v.id
  | some p => p

/-- The default value of a variant flag:
`variations.at(0)?.payload ?? variations.at(0)?.id`, undefined when the
variations list is empty. -/
def firstVariationDefault : List Variation → JSValue
  | [] => .undefined
  | v :: _ => variationValue v

/-- The default (non-firing) result per flag type (`getDefaultFlag`); the
unreachable default branch of the TS switch repeats the boolean case. -/
def getDefaultFlag (flag : Flag) : FlagResult :=
  match flag.type with
  | .boolean => ⟨.boolean, .bool false, false⟩
  | .payload => ⟨.payload, .null, false⟩
  | .variant => ⟨.variant, firstVariationDefault flag.variations, false⟩

/-- Strict equality `v.id === variantId` against a possibly-null id. -/
def variantIdEq (id : Str) : Option Str → Bool
  | some i => decide (id = i)
  | none => false

/-- The payload coalescing `flag.payload ?? null`. -/
def orNull : Option JSValue → JSValue
  | none => .null
  | some v => v

/-- The final type switch of `evaluateFlag`.  For a variant flag whose
bucket exceeds the total weight, `chooseVariant` returns null, `find`
returns undefined, and `variant?.payload ?? variant.id` throws a TypeError
reading `id` of undefined: `.error ()`. -/
def produceTypedResult (flag : Flag) (userId : Option Str) :
    Except Unit FlagResult :=
  match flag.type with
  | .boolean => .ok ⟨.boolean, .bool true, true⟩
  | .payload => .ok ⟨.payload, orNull flag.payload, true⟩
  | .variant =>
      let variantId := chooseVariant userId flag.id flag.variations
      match flag.variations.find? (fun v => variantIdEq v.id variantId) with
      | none => .error ()
      | some v => .ok ⟨.variant, variationValue v, true⟩

/-- The flag-restricted segments object `evaluateFlag` builds by reduction
over `flag.segments`: each referenced key, mapped to the tenant rule or
undefined when the tenant map lacks it. -/
def flagSegmentsOf (flag : Flag) (segments : List (Str × Str)) :
    List (Str × Option Str) :=
  dedupByKey (flag.segments.map fun k => (k, assocLookup segments k))

/-- The rules conjunction gate:
`flag.rules.length === 0 || flag.rules.every(rule => jexl.evalSync(rule, input))`. -/
def rulesGate (H : Host) (flag : Flag) (input : Input) : Except Unit Bool :=
  if flag.rules.length = 0 then .ok true
  else jsEvery (fun r => H.jexl r input) flag.rules

/-- Evaluate a single feature flag for a given user/context input.  Direct
translation of `evaluateFlag`: master gate, rules conjunction, standalone
segment disjunction only when no rollout steps exist, then either the
rollout steps or the base rollout percentage, then the typed result.
Exceptions from jexl (and the TypeError of the variant branch) propagate:
nothing in the function catches. -/
def evaluateFlag (H : Host) (flag : Flag) (segments : List (Str × Str))
    (input : Input) (now : Int) : Except Unit FlagResult :=
  if flag.enabled = false then .ok (getDefaultFlag flag)
  else
    let userId := input.id
    let flagSegments := flagSegmentsOf flag segments
    match rulesGate H flag input with
    | .error e => .error e
    | .ok rulesPassed =>
        if rulesPassed = false then .ok (getDefaultFlag flag)
        else
          let hasSegments := decide (0 < flagSegments.length)
          let hasRolloutes := decide (0 < flag.rollouts.length)
          let segGate : Except Unit Bool :=
            if !hasRolloutes && hasSegments then
              jsSome (fun r => evalRuleOpt H r input)
                (flagSegments.map Prod.snd)
            else .ok true
          match segGate with
          | .error e => .error e
          | .ok segmentsPassed =>
              if segmentsPassed = false then .ok (getDefaultFlag flag)
              else
                let rolloutGate : Except Unit Bool :=
                  if hasRolloutes then
                    evaluateRolloutSteps H flag.rollouts flagSegments userId
                      flag.id input now
                  else .ok (isUserInRollout userId flag.id flag.rollout)
                match rolloutGate with
                | .error e => .error e
                | .ok included =>
                    if included = false then .ok (getDefaultFlag flag)
                    else produceTypedResult flag userId

/-! ### Store sync (src/storage.ts) -/

/-- A tenant document: flags and segments, each a JS object modelled as an
association list with unique keys. -/
structure AppData where
  flags : List (Str × Flag)
  segments : List (Str × Str)

/-- The pure core of `AppKV.syncEnv`: copy every source flag into the
target (forcing `enabled := false` unless `overwrite`), copy every source
segment, keep everything else in the target. -/
def syncEnvData (source target : AppData) (overwrite : Bool) : AppData :=
  { flags :=
      source.flags.foldl
        (fun acc kf =>
          assocSet acc kf.1
            (if overwrite then kf.2 else { kf.2 with enabled := false }))
        target.flags
    segments :=
      source.segments.foldl (fun acc ks => assocSet acc ks.1 ks.2)
        target.segments }

/-! ### Spec-side definitions for the hash refinement claim

The spec states the hash is FNV-1a over the UTF-8 bytes of the
concatenation; the following definitions follow the words of the spec and
are compared with the source-side `userPercentageHash` above. -/

/-- UTF-8 encoding of one code point. -/
def utf8Encode (c : Nat) : List Nat :=
  if c < 0x80 then [c]
  else if c < 0x800 then
    [0xC0 ||| (c >>> 6), 0x80 ||| (c &&& 0x3F)]
  else if c < 0x10000 then
    [0xE0 ||| (c >>> 12), 0x80 ||| ((c >>> 6) &&& 0x3F), 0x80 ||| (c &&& 0x3F)]
  else
    [0xF0 ||| (c >>> 18), 0x80 ||| ((c >>> 12) &&& 0x3F),
     0x80 ||| ((c >>> 6) &&& 0x3F), 0x80 ||| (c &&& 0x3F)]

/-- UTF-8 bytes of a string given by its code points. -/
def utf8Bytes (s : Str) : List Nat := (s.map utf8Encode).flatten

/-- Modelled from the spec: the bucket as the spec words it, FNV-1a 32-bit
over the UTF-8 bytes of `identity + ":" + flagKey`, mod 100, plus 1. -/
def bucketUtf8Spec (identity flagKey : Str) : Nat :=
  hashFnv32a (utf8Bytes (identity ++ jstr ":" ++ flagKey)) % 100 + 1

/-! ### Concrete fixtures shared by witnesses and counterexamples -/

/-- A host whose expression evaluator always returns true and whose date
parser always returns epoch 0. -/
def hostOkTrue : Host := ⟨fun _ _ => .ok (.bool true), fun _ => some 0⟩

/-- A host whose expression evaluator always throws (a rule that fails to
parse) and whose date parser always returns epoch 0. -/
def hostThrow : Host := ⟨fun _ _ => .error (), fun _ => some 0⟩

/-- A host whose expression evaluator always returns the empty array. -/
def hostEmptyArr : Host := ⟨fun _ _ => .ok (.arr []), fun _ => some 0⟩

/-- A host whose expression evaluator always returns null. -/
def hostNull : Host := ⟨fun _ _ => .ok JSValue.null, fun _ => some 0⟩

/-- A host whose date parser succeeds (value 100) only on the string
"2025" and yields NaN on everything else. -/
def hostDate2025 : Host :=
  ⟨fun _ _ => .ok (.bool true), fun s => if s = jstr "2025" then some 100 else none⟩

/-- A concrete evaluation input with identity user-123. -/
def cInput : Input :=
  ⟨some (jstr "user-123"), .undefined, .undefined, .undefined, .undefined⟩

/-- A plain enabled boolean flag with full rollout and no rules, segments
or rollout steps. -/
def cBoolFlag : Flag :=
  ⟨jstr "test-flag", .boolean, true, [], [], 100, [], none, []⟩

/-- The boolean flag with a single rule expression. -/
def cRuleFlag : Flag := { cBoolFlag with rules := [jstr "some rule"] }

/-- An enabled variant flag whose two variations have weight 0, so every
bucket exceeds the total weight. -/
def cVariantFlag : Flag :=
  ⟨jstr "test-variant-flag", .variant, true, [], [], 100, [], none,
   [⟨jstr "a", 0, none⟩, ⟨jstr "b", 0, none⟩]⟩

/-- A tenant segments map holding the single segment s. -/
def cTenantSegs : List (Str × Str) := [(jstr "s", jstr "user.premium == true")]

/-- An enabled boolean flag whose only gate is a rollout step that names
segment s, while the flag itself references no segments. -/
def cStepSegFlag : Flag :=
  { cBoolFlag with
    id := jstr "f6"
    rollout := 0
    rollouts := [⟨jstr "2020-01-01", none, some (jstr "s")⟩] }

/-- An enabled boolean flag gated by the standalone segment s. -/
def cSegFlag : Flag := { cBoolFlag with segments := [jstr "s"] }

/-- An enabled boolean flag whose only gate is a rollout step that sets its
segment to the empty string. -/
def cEmptySegStepFlag : Flag :=
  { cBoolFlag with
    id := jstr "f6empty"
    rollout := 0
    rollouts := [⟨jstr "2020-01-01", none, some []⟩] }

/-- A source tenant document for the sync claims. -/
def cSource : AppData :=
  ⟨[(jstr "feature-a", { cBoolFlag with id := jstr "feature-a" })],
   [(jstr "beta-users", jstr "user.beta == true")]⟩

/-- A target tenant document holding keys the source does not have. -/
def cTarget : AppData :=
  ⟨[(jstr "target-flag", { cBoolFlag with id := jstr "target-flag" })],
   [(jstr "target-seg", jstr "user.t == true")]⟩

/-! ### Helper lemmas -/

/-- Sanity check: the JS shift-add chain of `fnvStep` is multiplication by
the FNV prime 16777619 modulo `2 ^ 32`. -/
theorem fnvStep_eq_mul (h c : Nat) :
    fnvStep h c = ((h ^^^ c) * 16777619) % 2 ^ 32 := by
  simp only [fnvStep, Nat.shiftLeft_eq]
  ring_nf

theorem getDefaultFlag_isEval (flag : Flag) :
    (getDefaultFlag flag).isEval = false := by
  unfold getDefaultFlag
  cases flag.type <;> rfl

theorem jsSome_eq_true_exists {α : Type} (f : α → Except Unit JSValue)
    (l : List α) (h : jsSome f l = .ok true) :
    ∃ x ∈ l, ∃ v, f x = .ok v ∧ toBool v = true := by
  induction l with
  | nil => simp [jsSome] at h
  | cons x xs ih =>
      simp only [jsSome] at h
      split at h
      next e he => exact absurd h (by simp)
      next v hv =>
        split at h
        next hb => exact ⟨x, List.mem_cons_self x xs, v, hv, hb⟩
        next hb =>
          obtain ⟨y, hy, w, hw, hwb⟩ := ih h
          exact ⟨y, List.mem_cons_of_mem _ hy, w, hw, hwb⟩

theorem mem_dedupByKeyAux {α : Type} {p : Str × α} :
    ∀ (l : List (Str × α)) (seen : List Str),
      p ∈ dedupByKeyAux seen l → p ∈ l := by
  intro l
  induction l with
  | nil => intro seen h; simp [dedupByKeyAux] at h
  | cons hd tl ih =>
      intro seen h
      obtain ⟨k, v⟩ := hd
      simp only [dedupByKeyAux] at h
      by_cases hk : k ∈ seen
      · rw [if_pos hk] at h
        exact List.mem_cons_of_mem _ (ih seen h)
      · rw [if_neg hk] at h
        rcases List.mem_cons.mp h with h | h
        · exact h ▸ List.mem_cons_self _ _
        · exact List.mem_cons_of_mem _ (ih (k :: seen) h)

theorem assocLookup_dedupByKeyAux {α : Type} :
    ∀ (l : List (Str × α)) (seen : List Str) (k : Str), k ∉ seen →
      assocLookup (dedupByKeyAux seen l) k = assocLookup l k := by
  intro l
  induction l with
  | nil => intro seen k _; rfl
  | cons hd tl ih =>
      intro seen k hk
      obtain ⟨k', v⟩ := hd
      simp only [dedupByKeyAux, assocLookup]
      by_cases hmem : k' ∈ seen
      · rw [if_pos hmem, ih seen k hk]
        have hne : ¬ k' = k := fun h => hk (h ▸ hmem)
        rw [if_neg hne]
      · rw [if_neg hmem]
        simp only [assocLookup]
        by_cases heq : k' = k
        · rw [if_pos heq, if_pos heq]
        · rw [if_neg heq, if_neg heq]
          exact ih (k' :: seen) k
            (by intro h; rcases List.mem_cons.mp h with h | h
                exacts [heq h.symm, hk h])

theorem assocLookup_dedupByKey {α : Type} (l : List (Str × α)) (k : Str) :
    assocLookup (dedupByKey l) k = assocLookup l k :=
  assocLookup_dedupByKeyAux l [] k (by simp)

theorem assocLookup_map_lookup (segs : List (Str × Str)) :
    ∀ (keys : List Str) (k : Str),
      assocLookup (keys.map fun k' => (k', assocLookup segs k')) k
        = if k ∈ keys then some (assocLookup segs k) else none := by
  intro keys
  induction keys with
  | nil => intro k; simp [assocLookup]
  | cons k' rest ih =>
      intro k
      simp only [List.map_cons, assocLookup]
      by_cases heq : k' = k
      · subst heq
        simp
      · rw [if_neg heq, ih k]
        by_cases hk : k ∈ rest
        · rw [if_pos hk, if_pos (List.mem_cons_of_mem _ hk)]
        · rw [if_neg hk, if_neg (by
            intro h
            rcases List.mem_cons.mp h with h | h
            exacts [heq h.symm, hk h])]

theorem flagSegmentsOf_length_pos (flag : Flag) (segs : List (Str × Str))
    (h : flag.segments ≠ []) : 0 < (flagSegmentsOf flag segs).length := by
  unfold flagSegmentsOf dedupByKey
  cases hs : flag.segments with
  | nil => exact absurd hs h
  | cons k rest => simp [dedupByKeyAux]

theorem segmentRule_flagSegmentsOf (flag : Flag)
    (segs : List (Str × Str)) (seg : Str) :
    segmentRule (flagSegmentsOf flag segs) seg
      = if seg ∈ flag.segments then assocLookup segs seg else none := by
  unfold segmentRule
  rw [show assocLookup (flagSegmentsOf flag segs) seg
      = if seg ∈ flag.segments then some (assocLookup segs seg) else none from
    by unfold flagSegmentsOf
       rw [assocLookup_dedupByKey, assocLookup_map_lookup]]
  by_cases hm : seg ∈ flag.segments
  · rw [if_pos hm, if_pos hm]
    cases assocLookup segs seg <;> rfl
  · rw [if_neg hm, if_neg hm]

theorem stepSegmentCheck_ok_true (H : Host)
    (segs : List (Str × Option Str)) (seg : Str) (input : Input)
    (hne : seg ≠ [])
    (h : stepSegmentCheck H segs (some seg) input = .ok true) :
    ∃ rule v, segmentRule segs seg = some rule ∧ rule ≠ []
      ∧ H.jexl rule input = .ok v ∧ toBool v = true := by
  simp only [stepSegmentCheck] at h
  split at h
  next hEmpty => exact absurd (List.isEmpty_iff.mp hEmpty) hne
  next hEmpty =>
    split at h
    next rule heq =>
      split at h
      next hre => simp at h
      next hre =>
        split at h
        next e heqv => simp at h
        next v heqv =>
          simp only [Except.ok.injEq] at h
          exact ⟨rule, v, heq, (by simpa [List.isEmpty_iff] using hre),
            heqv, h⟩
    next heq => simp at h

theorem stepSegmentCheck_missing (H : Host)
    (segs : List (Str × Option Str)) (seg : Str) (input : Input)
    (hne : seg ≠ []) (hrule : segmentRule segs seg = none) :
    stepSegmentCheck H segs (some seg) input = .ok false := by
  simp only [stepSegmentCheck]
  rw [if_neg (by simp [List.isEmpty_iff, hne]), hrule]

theorem assocLookup_assocSet_self {α : Type} :
    ∀ (l : List (Str × α)) (k : Str) (v : α),
      assocLookup (assocSet l k v) k = some v := by
  intro l
  induction l with
  | nil => intro k v; simp [assocSet, assocLookup]
  | cons hd tl ih =>
      intro k v
      obtain ⟨k', v'⟩ := hd
      simp only [assocSet]
      by_cases heq : k' = k
      · rw [if_pos heq]; simp [assocLookup]
      · rw [if_neg heq]
        simp only [assocLookup]
        rw [if_neg heq, ih]

theorem assocLookup_assocSet_ne {α : Type} :
    ∀ (l : List (Str × α)) (k k' : Str) (v : α), k' ≠ k →
      assocLookup (assocSet l k' v) k = assocLookup l k := by
  intro l
  induction l with
  | nil => intro k k' v h; simp [assocSet, assocLookup, h]
  | cons hd tl ih =>
      intro k k' v h
      obtain ⟨k₀, v₀⟩ := hd
      simp only [assocSet]
      by_cases heq : k₀ = k'
      · rw [if_pos heq]
        simp only [assocLookup]
        rw [if_neg h, if_neg (fun hh => h (heq.symm.trans hh))]
      · rw [if_neg heq]
        simp only [assocLookup]
        by_cases h₀ : k₀ = k
        · rw [if_pos h₀, if_pos h₀]
        · rw [if_neg h₀, if_neg h₀, ih _ _ _ h]

theorem assocLookup_eq_none_keys {α : Type} :
    ∀ (l : List (Str × α)) (k : Str), assocLookup l k = none →
      ∀ p ∈ l, p.1 ≠ k := by
  intro l
  induction l with
  | nil => intro k _ p hp; simp at hp
  | cons hd tl ih =>
      intro k h p hp
      obtain ⟨k', v⟩ := hd
      simp only [assocLookup] at h
      by_cases heq : k' = k
      · rw [if_pos heq] at h; exact absurd h (by simp)
      · rw [if_neg heq] at h
        rcases List.mem_cons.mp hp with hp | hp
        · rw [hp]; exact heq
        · exact ih k h p hp

theorem assocLookup_foldlSet_notmem {α : Type} (g : Str × α → α) :
    ∀ (src : List (Str × α)) (t : List (Str × α)) (k : Str),
      (∀ p ∈ src, p.1 ≠ k) →
      assocLookup (src.foldl (fun acc e => assocSet acc e.1 (g e)) t) k
        = assocLookup t k := by
  intro src
  induction src with
  | nil => intro t k _; rfl
  | cons e rest ih =>
      intro t k h
      simp only [List.foldl_cons]
      rw [ih _ k (fun p hp => h p (List.mem_cons_of_mem _ hp)),
        assocLookup_assocSet_ne _ _ _ _ (h e (List.mem_cons_self _ _))]

theorem assocLookup_foldlSet_mem {α : Type} (g : Str × α → α) :
    ∀ (src : List (Str × α)) (t : List (Str × α)) (k : Str) (f : α),
      (src.map Prod.fst).Nodup → assocLookup src k = some f →
      assocLookup (src.foldl (fun acc e => assocSet acc e.1 (g e)) t) k
        = some (g (k, f)) := by
  intro src
  induction src with
  | nil => intro t k f _ hf; simp [assocLookup] at hf
  | cons e rest ih =>
      intro t k f hnd hf
      obtain ⟨k', v⟩ := e
      simp only [List.map_cons, List.nodup_cons] at hnd
      obtain ⟨hk', hndrest⟩ := hnd
      simp only [assocLookup] at hf
      simp only [List.foldl_cons]
      by_cases heq : k' = k
      · subst heq
        rw [if_pos rfl] at hf
        obtain rfl : v = f := by injection hf
        rw [assocLookup_foldlSet_notmem g rest _ k'
            (fun p hp h => hk' (h ▸ List.mem_map_of_mem Prod.fst hp)),
          assocLookup_assocSet_self]
      · rw [if_neg heq] at hf
        exact ih _ k f hndrest hf

theorem utf8Bytes_of_ascii :
    ∀ (s : Str), (∀ c ∈ s, c < 128) → utf8Bytes s = s := by
  intro s
  induction s with
  | nil => intro _; rfl
  | cons c rest ih =>
      intro h
      have hc : c < 128 := h c (List.mem_cons_self _ _)
      simp only [utf8Bytes, List.map_cons, List.flatten_cons]
      rw [show utf8Encode c = [c] from by unfold utf8Encode; rw [if_pos hc]]
      have := ih fun x hx => h x (List.mem_cons_of_mem _ hx)
      simp only [utf8Bytes] at this
      rw [this]
      rfl

theorem evaluateFlag_disabled (H : Host) (flag : Flag)
    (segs : List (Str × Str)) (input : Input) (now : Int)
    (hen : flag.enabled = false) :
    evaluateFlag H flag segs input now = .ok (getDefaultFlag flag) := by
  unfold evaluateFlag
  rw [if_pos hen]

theorem evaluateFlag_rollouts_ne (H : Host) (flag : Flag)
    (segs : List (Str × Str)) (input : Input) (now : Int)
    (hen : flag.enabled = true) (hroll : flag.rollouts ≠ []) :
    evaluateFlag H flag segs input now =
      match rulesGate H flag input with
      | .error e => .error e
      | .ok false => .ok (getDefaultFlag flag)
      | .ok true =>
          match evaluateRolloutSteps H flag.rollouts (flagSegmentsOf flag segs)
              input.id flag.id input now with
          | .error e => .error e
          | .ok false => .ok (getDefaultFlag flag)
          | .ok true => produceTypedResult flag input.id := by
  have hr : decide (0 < flag.rollouts.length) = true := by
    cases hl : flag.rollouts with
    | nil => exact absurd hl hroll
    | cons s rest => simp
  unfold evaluateFlag
  cases hrg : rulesGate H flag input with
  | error e => simp [hen, hrg]
  | ok b =>
      cases b with
      | false => simp [hen, hrg]
      | true =>
          cases hsteps : evaluateRolloutSteps H flag.rollouts
              (flagSegmentsOf flag segs) input.id flag.id input now with
          | error e => simp [hen, hrg, hr, hsteps]
          | ok inc =>
              cases inc with
              | false => simp [hen, hrg, hr, hsteps]
              | true => simp [hen, hrg, hr, hsteps]

theorem evaluateFlag_standalone (H : Host) (flag : Flag)
    (segs : List (Str × Str)) (input : Input) (now : Int)
    (hen : flag.enabled = true) (hroll : flag.rollouts = [])
    (hseg : flag.segments ≠ []) :
    evaluateFlag H flag segs input now =
      match rulesGate H flag input with
      | .error e => .error e
      | .ok false => .ok (getDefaultFlag flag)
      | .ok true =>
          match jsSome (fun r => evalRuleOpt H r input)
              ((flagSegmentsOf flag segs).map Prod.snd) with
          | .error e => .error e
          | .ok false => .ok (getDefaultFlag flag)
          | .ok true =>
              if isUserInRollout input.id flag.id flag.rollout
              then produceTypedResult flag input.id
              else .ok (getDefaultFlag flag) := by
  have hr : decide (0 < flag.rollouts.length) = false := by
    rw [hroll]; simp
  have hs : decide (0 < (flagSegmentsOf flag segs).length) = true := by
    simp [flagSegmentsOf_length_pos flag segs hseg]
  unfold evaluateFlag
  cases hrg : rulesGate H flag input with
  | error e => simp [hen, hrg]
  | ok b =>
      cases b with
      | false => simp [hen, hrg]
      | true =>
          cases hsome : jsSome (fun r => evalRuleOpt H r input)
              ((flagSegmentsOf flag segs).map Prod.snd) with
          | error e => simp [hen, hrg, hr, hs, hsome]
          | ok sp =>
              cases sp with
              | false => simp [hen, hrg, hr, hs, hsome]
              | true =>
                  cases hiur : isUserInRollout input.id flag.id flag.rollout
                  · simp [hen, hrg, hr, hs, hsome, hiur]
                  · simp [hen, hrg, hr, hs, hsome, hiur]

theorem userPercentageHash_le (userId : Option Str) (flagKey : Str) :
    1 ≤ userPercentageHash userId flagKey
      ∧ userPercentageHash userId flagKey ≤ 100 := by
  unfold userPercentageHash
  have := Nat.mod_lt (hashFnv32a (jsStringCoerce userId ++ jstr ":" ++ flagKey))
    (show 0 < 100 by norm_num)
  omega

/-! ### Claims -/

/-- C1, counterexample: a flag whose single rule throws in the evaluator
(a parse failure) makes `evaluateFlag` propagate the exception; it does not
return the default result.  The claim that a malformed rule yields the
default and never aborts the decision is therefore false on the code. -/
theorem C1_counterexample :
    evaluateFlag hostThrow cRuleFlag [] cInput 0 = .error ()
      ∧ evaluateFlag hostThrow cRuleFlag [] cInput 0
          ≠ .ok (getDefaultFlag cRuleFlag) := by
  refine ⟨rfl, ?_⟩
  intro h
  rw [show evaluateFlag hostThrow cRuleFlag [] cInput 0 = .error () from rfl]
    at h
  exact Except.noConfusion h

/-- C1, amended: when the rules conjunction throws (some reached rule fails
to parse or fails at runtime, every earlier rule being truthy),
`evaluateFlag` of an enabled flag propagates the exception as an error
instead of returning the default result, so a single malformed rule aborts
the decision (and, untrapped in the transport loop, the whole batch). -/
theorem C1_rule_failure_propagates (H : Host) (flag : Flag)
    (segs : List (Str × Str)) (input : Input) (now : Int)
    (hen : flag.enabled = true)
    (hfail : jsEvery (fun r => H.jexl r input) flag.rules = .error ()) :
    evaluateFlag H flag segs input now = .error () := by
  have hne : ¬ flag.rules.length = 0 := by
    intro h0
    rw [List.length_eq_zero] at h0
    rw [h0] at hfail
    simp [jsEvery] at hfail
  have hrg : rulesGate H flag input = .error () := by
    unfold rulesGate
    rw [if_neg hne]
    exact hfail
  unfold evaluateFlag
  simp [hen, hrg]

/-- C1, witness for the amended theorem at a concrete throwing rule. -/
theorem C1_rule_failure_propagates_witness :
    evaluateFlag hostThrow cRuleFlag [] cInput 0 = .error () :=
  C1_rule_failure_propagates hostThrow cRuleFlag [] cInput 0 rfl rfl

/-- C2, code bug: for an enabled variant flag whose variation weights sum
below every bucket (both weights 0), `chooseVariant` selects no variation,
`find` yields undefined, and the result expression
`variant?.payload ?? variant.id` throws a TypeError instead of returning
the variant default result with isEval false as the spec states.  The
third conjunct records the default the spec expected. -/
theorem C2_variant_underflow_throws :
    chooseVariant cInput.id cVariantFlag.id cVariantFlag.variations = none
      ∧ evaluateFlag hostOkTrue cVariantFlag [] cInput 0 = .error ()
      ∧ getDefaultFlag cVariantFlag
          = ⟨.variant, .str (jstr "a"), false⟩ :=
  ⟨rfl, rfl, rfl⟩

/-- C3, counterexample: a rollout step whose start string does not parse
(NaN) passes — the JS comparison now < NaN is false, so the time gate does
not fail the step — and a step that sets neither percentage nor segment
also passes once its time gate does.  The claim states both must fail. -/
theorem C3_counterexample :
    hostDate2025.parseDate (jstr "not-a-date") = none
      ∧ evaluateRolloutStep hostDate2025 ⟨jstr "not-a-date", some 100, none⟩
          [] (some (jstr "u")) (jstr "f") cInput 200 = .ok true
      ∧ hostDate2025.parseDate (jstr "2025") = some 100
      ∧ evaluateRolloutStep hostDate2025 ⟨jstr "2025", none, none⟩
          [] (some (jstr "u")) (jstr "f") cInput 200 = .ok true := by
  refine ⟨by decide, rfl, by decide, rfl⟩

/-- C3, amended: a rollout step passes only if now < parse(step.start) is
false under the JS NaN semantics — in particular an unparseable start does
NOT fail the step, the time gate simply passes — and a step that sets
neither percentage nor segment passes exactly when its time gate does. -/
theorem C3_time_gate (H : Host) (step : RolloutStep)
    (segs : List (Str × Option Str)) (userId : Option Str) (flagKey : Str)
    (input : Input) (now : Int) :
    (evaluateRolloutStep H step segs userId flagKey input now = .ok true →
        jsLtNow now (H.parseDate step.start) = false)
      ∧ (step.percentage = none → step.segment = none →
          evaluateRolloutStep H step segs userId flagKey input now
            = .ok (!jsLtNow now (H.parseDate step.start))) := by
  constructor
  · intro h
    cases hb : jsLtNow now (H.parseDate step.start)
    · rfl
    · unfold evaluateRolloutStep at h
      rw [if_pos (by rw [hb])] at h
      exact absurd h (by simp)
  · intro hp hs
    unfold evaluateRolloutStep
    cases hb : jsLtNow now (H.parseDate step.start)
    · rw [if_neg (by simp)]
      simp [hs, hp, stepSegmentCheck, stepPercentageCheck]
    · rw [if_pos rfl]
      simp

/-- C3, witness for the amended theorem: a parseable, already-started step
with neither percentage nor segment passes. -/
theorem C3_time_gate_witness :
    evaluateRolloutStep hostDate2025 ⟨jstr "2025", none, none⟩ []
        (some (jstr "u")) (jstr "f") cInput 200 = .ok true := by
  have h := (C3_time_gate hostDate2025 ⟨jstr "2025", none, none⟩ []
    (some (jstr "u")) (jstr "f") cInput 200).2 rfl rfl
  rw [h]
  rfl

/-- C4, counterexample: the code hashes UTF-16 code units (charCodeAt), not
UTF-8 bytes.  For the identity é (code unit 233, UTF-8 bytes 195 169) and
flag key f, the code bucket is 73 while the bucket over UTF-8 bytes as the
claim words it is 50. -/
theorem C4_counterexample :
    userPercentageHash (some [233]) [102] = 73
      ∧ bucketUtf8Spec [233] [102] = 50
      ∧ userPercentageHash (some [233]) [102]
          ≠ bucketUtf8Spec [233] [102] :=
  ⟨by decide, by decide, by decide⟩

/-- C4, amended: the bucket is FNV-1a 32-bit over the UTF-16 code units of
identity + ":" + flagKey, mod 100, plus 1, lying in 1..100; on ASCII
inputs this coincides with the UTF-8 reading of the claim; the pinned
values hold: bucket 95 for user-123 and 34 for user-456 on new-dashboard,
so a 50 percent rollout fires for user-456 and not for user-123. -/
theorem C4_bucket (identity flagKey : Str) :
    userPercentageHash (some identity) flagKey
        = hashFnv32a (identity ++ jstr ":" ++ flagKey) % 100 + 1
      ∧ 1 ≤ userPercentageHash (some identity) flagKey
      ∧ userPercentageHash (some identity) flagKey ≤ 100
      ∧ ((∀ c ∈ identity ++ jstr ":" ++ flagKey, c < 128) →
          userPercentageHash (some identity) flagKey
            = bucketUtf8Spec identity flagKey)
      ∧ userPercentageHash (some (jstr "user-123")) (jstr "new-dashboard")
          = 95
      ∧ userPercentageHash (some (jstr "user-456")) (jstr "new-dashboard")
          = 34
      ∧ isUserInRollout (some (jstr "user-456")) (jstr "new-dashboard") 50
          = true
      ∧ isUserInRollout (some (jstr "user-123")) (jstr "new-dashboard") 50
          = false := by
  refine ⟨rfl, (userPercentageHash_le _ _).1, (userPercentageHash_le _ _).2,
    ?_, by decide, by decide, by decide, by decide⟩
  intro h
  simp only [userPercentageHash, bucketUtf8Spec, jsStringCoerce]
  rw [utf8Bytes_of_ascii _ h]

/-- C4, witness for the amended theorem: on the pinned ASCII input the code
bucket and the spec-worded UTF-8 bucket agree. -/
theorem C4_bucket_witness :
    userPercentageHash (some (jstr "user-123")) (jstr "new-dashboard")
      = bucketUtf8Spec (jstr "user-123") (jstr "new-dashboard") :=
  (C4_bucket (jstr "user-123") (jstr "new-dashboard")).2.2.2.1 (by decide)

/-- C5, counterexample: a rule evaluating to the empty array is truthy in
JS (ToBoolean of any object is true), so the flag fires; the claim that
the empty array coerces to false is wrong on the code. -/
theorem C5_counterexample :
    hostEmptyArr.jexl (jstr "some rule") cInput = .ok (.arr [])
      ∧ toBool (.arr []) = true
      ∧ evaluateFlag hostEmptyArr cRuleFlag [] cInput 0
          = .ok ⟨.boolean, .bool true, true⟩
      ∧ evaluateFlag hostEmptyArr cRuleFlag [] cInput 0
          ≠ .ok (getDefaultFlag cRuleFlag) := by
  refine ⟨rfl, rfl, rfl, ?_⟩
  intro h
  rw [show evaluateFlag hostEmptyArr cRuleFlag [] cInput 0
      = .ok ⟨.boolean, .bool true, true⟩ from rfl] at h
  have h2 := Except.ok.inj h
  exact Bool.noConfusion (congrArg FlagResult.isEval h2)

/-- C5, amended: a rule result is coerced by ECMAScript ToBoolean: false,
null, undefined, 0 and the empty string are falsy; every other value —
including the empty array — is truthy.  A falsy rule makes the flag return
its default result. -/
theorem C5_truthiness :
    (∀ v : JSValue, toBool v = false ↔
        (v = .bool false ∨ v = .null ∨ v = .undefined
          ∨ v = .num 0 ∨ v = .str []))
      ∧ (∀ (H : Host) (flag : Flag) (segs : List (Str × Str)) (input : Input)
          (now : Int) (r : Str) (v : JSValue),
          flag.enabled = true → flag.rules = [r] →
          H.jexl r input = .ok v → toBool v = false →
          evaluateFlag H flag segs input now = .ok (getDefaultFlag flag)) := by
  constructor
  · intro v
    cases v with
    | null => simp [toBool]
    | undefined => simp [toBool]
    | bool b => cases b <;> simp [toBool]
    | num n => simp [toBool]
    | str s => simp [toBool, List.isEmpty_iff]
    | arr xs => simp [toBool]
    | obj fs => simp [toBool]
  · intro H flag segs input now r v hen hr hv hb
    have hrg : rulesGate H flag input = .ok false := by
      unfold rulesGate
      rw [hr]
      simp [jsEvery, hv, hb]
    unfold evaluateFlag
    simp [hen, hrg]

/-- C5, witness for the amended theorem: a null rule result yields the
default. -/
theorem C5_truthiness_witness :
    evaluateFlag hostNull cRuleFlag [] cInput 0
      = .ok (getDefaultFlag cRuleFlag) :=
  C5_truthiness.2 hostNull cRuleFlag [] cInput 0 (jstr "some rule")
    JSValue.null rfl rfl rfl rfl

/-- C6, counterexample: a rollout step whose segment is SET to the empty
string passes — and the flag fires — although the empty string exists in
no tenant segments map at all (here the tenant map is empty): the JS
truthiness test `step.segment ?` treats the empty string as no segment
requirement, so no lookup and no evaluation happen.  The claim, which for
every step with segment set requires existence in the tenant map and a
truthy evaluation, is therefore false at this input. -/
theorem C6_counterexample :
    cEmptySegStepFlag.rollouts.map RolloutStep.segment = [some []]
      ∧ assocLookup ([] : List (Str × Str)) [] = none
      ∧ evaluateRolloutStep hostOkTrue ⟨jstr "2020-01-01", none, some []⟩
          (flagSegmentsOf cEmptySegStepFlag []) cInput.id
          cEmptySegStepFlag.id cInput 100 = .ok true
      ∧ evaluateFlag hostOkTrue cEmptySegStepFlag [] cInput 100
          = .ok ⟨.boolean, .bool true, true⟩ :=
  ⟨rfl, rfl, rfl, rfl⟩

/-- C6, amended: for every rollout step whose segment is set to a
NON-EMPTY string, evaluated as the decision evaluates it (against the
flag-restricted object built from the tenant map), the step passes only
if that segment id exists in the tenant-scoped segments map passed to the
decision and its expression evaluates truthy against the input, and when
step.percentage is also set inRollout must pass as well; a segment id
missing from the tenant map fails the step with false, without throwing;
a step whose segment is set to the empty string is treated as having no
segment requirement (JS truthiness of the id), its check passing with no
lookup. -/
theorem C6_step_segment :
    (∀ (H : Host) (flag : Flag) (segs : List (Str × Str)) (input : Input)
        (now : Int) (step : RolloutStep) (seg : Str),
        step.segment = some seg → seg ≠ [] →
        evaluateRolloutStep H step (flagSegmentsOf flag segs) input.id
            flag.id input now = .ok true →
        ∃ rule v, assocLookup segs seg = some rule
          ∧ H.jexl rule input = .ok v ∧ toBool v = true
          ∧ (∀ p, step.percentage = some p →
              isUserInRollout input.id flag.id p = true))
      ∧ (∀ (H : Host) (flag : Flag) (segs : List (Str × Str)) (input : Input)
          (now : Int) (step : RolloutStep) (seg : Str),
          step.segment = some seg → seg ≠ [] →
          assocLookup segs seg = none →
          evaluateRolloutStep H step (flagSegmentsOf flag segs) input.id
              flag.id input now = .ok false)
      ∧ (∀ (H : Host) (segs2 : List (Str × Option Str)) (input : Input)
          (step : RolloutStep), step.segment = some [] →
          stepSegmentCheck H segs2 step.segment input = .ok true) := by
  refine ⟨?_, ?_, ?_⟩
  · intro H flag segs input now step seg hseg hne h
    unfold evaluateRolloutStep at h
    by_cases hlt : jsLtNow now (H.parseDate step.start) = true
    · rw [if_pos hlt] at h
      exact absurd h (by simp)
    · rw [if_neg hlt] at h
      split at h
      next e hsc => exact absurd h (by simp)
      next sp hsc =>
        simp only [Except.ok.injEq, Bool.and_eq_true] at h
        obtain ⟨hsp, hpct⟩ := h
        rw [hsp, hseg] at hsc
        obtain ⟨rule, v, hrule, hrne, hv, hvb⟩ :=
          stepSegmentCheck_ok_true H (flagSegmentsOf flag segs) seg input
            hne hsc
        rw [segmentRule_flagSegmentsOf] at hrule
        by_cases hm : seg ∈ flag.segments
        · rw [if_pos hm] at hrule
          refine ⟨rule, v, hrule, hv, hvb, ?_⟩
          intro p hp
          unfold stepPercentageCheck at hpct
          rw [hp] at hpct
          exact hpct
        · rw [if_neg hm] at hrule
          exact absurd hrule (by simp)
  · intro H flag segs input now step seg hseg hne hnone
    have hrule : segmentRule (flagSegmentsOf flag segs) seg = none := by
      rw [segmentRule_flagSegmentsOf]
      by_cases hm : seg ∈ flag.segments
      · rw [if_pos hm]
        exact hnone
      · rw [if_neg hm]
    unfold evaluateRolloutStep
    by_cases hlt : jsLtNow now (H.parseDate step.start) = true
    · rw [if_pos hlt]
    · rw [if_neg hlt, hseg,
        stepSegmentCheck_missing H (flagSegmentsOf flag segs) seg input hne
          hrule]
      simp
  · intro H segs2 input step hseg
    rw [hseg]
    rfl

/-- C6, witness for the amended theorem: a step naming a segment missing
from the tenant map fails without throwing, evaluated exactly as the
decision evaluates it. -/
theorem C6_step_segment_witness :
    evaluateRolloutStep hostOkTrue
        ⟨jstr "2020-01-01", none, some (jstr "missing")⟩
        (flagSegmentsOf cSegFlag cTenantSegs) cInput.id cSegFlag.id cInput
        100 = .ok false :=
  C6_step_segment.2.1 hostOkTrue cSegFlag cTenantSegs cInput 100
    ⟨jstr "2020-01-01", none, some (jstr "missing")⟩ (jstr "missing") rfl
    (by decide) rfl

/-- C7: when rollouts are non-empty the base rollout percentage is never
consulted (changing it never changes the decision), the decision of an
enabled flag with passing rules is exactly the rollout-steps gate followed
by result production, and the first passing step decides with the
remaining steps never consulted. -/
theorem C7_rollout_precedence (H : Host) (flag : Flag)
    (segs : List (Str × Str)) (input : Input) (now : Int)
    (hroll : flag.rollouts ≠ []) :
    (∀ r : Int, evaluateFlag H { flag with rollout := r } segs input now
        = evaluateFlag H flag segs input now)
      ∧ (flag.enabled = true → rulesGate H flag input = .ok true →
          evaluateFlag H flag segs input now =
            match evaluateRolloutSteps H flag.rollouts
                (flagSegmentsOf flag segs) input.id flag.id input now with
            | .error e => .error e
            | .ok false => .ok (getDefaultFlag flag)
            | .ok true => produceTypedResult flag input.id)
      ∧ (∀ (step : RolloutStep) (rest : List RolloutStep)
          (fsegs : List (Str × Option Str)) (uid : Option Str) (fk : Str),
          evaluateRolloutStep H step fsegs uid fk input now = .ok true →
          evaluateRolloutSteps H (step :: rest) fsegs uid fk input now
            = .ok true) := by
  refine ⟨?_, ?_, ?_⟩
  · intro r
    by_cases hen : flag.enabled = true
    · rw [evaluateFlag_rollouts_ne H { flag with rollout := r } segs input
          now hen hroll,
        evaluateFlag_rollouts_ne H flag segs input now hen hroll]
      rfl
    · have hen' : flag.enabled = false := by
        revert hen; cases flag.enabled <;> simp
      rw [evaluateFlag_disabled H { flag with rollout := r } segs input now
          hen',
        evaluateFlag_disabled H flag segs input now hen']
      rfl
  · intro hen hrg
    rw [evaluateFlag_rollouts_ne H flag segs input now hen hroll, hrg]
  · intro step rest fsegs uid fk h
    simp only [evaluateRolloutSteps]
    rw [h]

/-- C7, witness: concretely, changing the base rollout of a flag that
carries a rollout step does not change the decision. -/
theorem C7_rollout_precedence_witness :
    evaluateFlag hostOkTrue { cStepSegFlag with rollout := 55 } cTenantSegs
        cInput 100
      = evaluateFlag hostOkTrue cStepSegFlag cTenantSegs cInput 100 :=
  (C7_rollout_precedence hostOkTrue cStepSegFlag cTenantSegs cInput 100
    (by exact fun h => List.noConfusion h)).1 55

/-- C8: for an enabled flag with no rollout steps and a non-empty segment
list, firing requires at least one referenced segment to resolve in the
tenant map and evaluate truthy; and when rollout steps exist the decision
equals rules gate then steps gate then production — the standalone segment
disjunction is not consulted at all. -/
theorem C8_standalone_segments :
    (∀ (H : Host) (flag : Flag) (segs : List (Str × Str)) (input : Input)
        (now : Int) (res : FlagResult),
        flag.rollouts = [] → flag.segments ≠ [] →
        evaluateFlag H flag segs input now = .ok res → res.isEval = true →
        ∃ k ∈ flag.segments, ∃ rule v, assocLookup segs k = some rule
          ∧ H.jexl rule input = .ok v ∧ toBool v = true)
      ∧ (∀ (H : Host) (flag : Flag) (segs : List (Str × Str)) (input : Input)
          (now : Int), flag.rollouts ≠ [] → flag.enabled = true →
          evaluateFlag H flag segs input now =
            match rulesGate H flag input with
            | .error e => .error e
            | .ok false => .ok (getDefaultFlag flag)
            | .ok true =>
                match evaluateRolloutSteps H flag.rollouts
                    (flagSegmentsOf flag segs) input.id flag.id input now with
                | .error e => .error e
                | .ok false => .ok (getDefaultFlag flag)
                | .ok true => produceTypedResult flag input.id) := by
  constructor
  · intro H flag segs input now res hroll hseg hev hisEval
    by_cases hen : flag.enabled = true
    · rw [evaluateFlag_standalone H flag segs input now hen hroll hseg]
        at hev
      split at hev
      · simp at hev
      · have h2 := Except.ok.inj hev
        rw [← h2, getDefaultFlag_isEval] at hisEval
        exact absurd hisEval (by simp)
      next hrgT =>
        split at hev
        · simp at hev
        · have h2 := Except.ok.inj hev
          rw [← h2, getDefaultFlag_isEval] at hisEval
          exact absurd hisEval (by simp)
        next hsome =>
          obtain ⟨x, hx, v, hfx, hvb⟩ := jsSome_eq_true_exists _ _ hsome
          obtain ⟨⟨k, x⟩, hmem, rfl⟩ := List.mem_map.mp hx
          have hmem2 := mem_dedupByKeyAux _ _ hmem
          obtain ⟨k', hk', hpair⟩ := List.mem_map.mp hmem2
          have h1 : k' = k := congrArg Prod.fst hpair
          have h2 : assocLookup segs k' = x := congrArg Prod.snd hpair
          cases x with
          | none => simp [evalRuleOpt] at hfx
          | some rule =>
              subst h1
              exact ⟨k', hk', rule, v, h2, hfx, hvb⟩
    · have hen' : flag.enabled = false := by
        revert hen; cases flag.enabled <;> simp
      rw [evaluateFlag_disabled H flag segs input now hen'] at hev
      have h2 := Except.ok.inj hev
      rw [← h2, getDefaultFlag_isEval] at hisEval
      exact absurd hisEval (by simp)
  · intro H flag segs input now hroll hen
    exact evaluateFlag_rollouts_ne H flag segs input now hen hroll

/-- C8, witness: a concrete segment-gated firing exhibits the truthy
referenced segment. -/
theorem C8_standalone_segments_witness :
    ∃ k ∈ cSegFlag.segments, ∃ rule v,
      assocLookup cTenantSegs k = some rule
        ∧ hostOkTrue.jexl rule cInput = .ok v ∧ toBool v = true :=
  C8_standalone_segments.1 hostOkTrue cSegFlag cTenantSegs cInput 0
    ⟨.boolean, .bool true, true⟩ rfl (by exact fun h => List.noConfusion h)
    rfl rfl

/-- C9: syncEnv with overwrite false writes every copied source flag into
the target with enabled forced to false, with overwrite true it preserves
the source enabled value, and in both modes every flag or segment key
present only in the target keeps its target value (merge, not replace). -/
theorem C9_sync_env (source target : AppData) :
    ((source.flags.map Prod.fst).Nodup →
      ∀ (k : Str) (f : Flag), assocLookup source.flags k = some f →
        assocLookup (syncEnvData source target false).flags k
            = some { f with enabled := false }
          ∧ assocLookup (syncEnvData source target true).flags k = some f)
      ∧ (∀ (k : Str) (b : Bool), assocLookup source.flags k = none →
          assocLookup (syncEnvData source target b).flags k
            = assocLookup target.flags k)
      ∧ (∀ (k : Str) (b : Bool), assocLookup source.segments k = none →
          assocLookup (syncEnvData source target b).segments k
            = assocLookup target.segments k) := by
  refine ⟨?_, ?_, ?_⟩
  · intro hnd k f hf
    constructor
    · simp only [syncEnvData]
      exact (assocLookup_foldlSet_mem _ source.flags target.flags k f hnd
        hf).trans (by simp)
    · simp only [syncEnvData]
      exact (assocLookup_foldlSet_mem _ source.flags target.flags k f hnd
        hf).trans (by simp)
  · intro k b hnone
    simp only [syncEnvData]
    exact assocLookup_foldlSet_notmem _ source.flags target.flags k
      (assocLookup_eq_none_keys source.flags k hnone)
  · intro k b hnone
    simp only [syncEnvData]
    exact assocLookup_foldlSet_notmem _ source.segments target.segments k
      (assocLookup_eq_none_keys source.segments k hnone)

/-- C9, witness: on a concrete pair of tenant documents, the copied flag
arrives disabled and the target-only keys are unchanged. -/
theorem C9_sync_env_witness :
    assocLookup (syncEnvData cSource cTarget false).flags (jstr "feature-a")
        = some { { cBoolFlag with id := jstr "feature-a" } with
            enabled := false }
      ∧ assocLookup (syncEnvData cSource cTarget false).flags
          (jstr "target-flag") = assocLookup cTarget.flags (jstr "target-flag")
      ∧ assocLookup (syncEnvData cSource cTarget false).segments
          (jstr "target-seg")
          = assocLookup cTarget.segments (jstr "target-seg") := by
  have h := C9_sync_env cSource cTarget
  exact ⟨(h.1 (by decide) (jstr "feature-a") _ rfl).1,
    h.2.1 (jstr "target-flag") false rfl,
    h.2.2 (jstr "target-seg") false rfl⟩

/-- C10: when the input has no id, the template interpolation inside
`userPercentageHash` renders the literal string undefined, so bucketing,
rollout membership and variant choice all behave exactly as for the
identity string undefined; on new-dashboard all id-less callers share
bucket 83. -/
theorem C10_identity_fallback :
    (∀ flagKey : Str, userPercentageHash none flagKey
        = userPercentageHash (some (jstr "undefined")) flagKey)
      ∧ (∀ (flagKey : Str) (pct : Int), isUserInRollout none flagKey pct
          = isUserInRollout (some (jstr "undefined")) flagKey pct)
      ∧ (∀ (flagKey : Str) (vars : List Variation),
          chooseVariant none flagKey vars
            = chooseVariant (some (jstr "undefined")) flagKey vars)
      ∧ userPercentageHash none (jstr "new-dashboard") = 83 :=
  ⟨fun _ => rfl, fun _ _ => rfl, fun _ _ => rfl, by decide⟩

end Flaggly
